import Mathlib

/-!
# Verification of the boa `JsString` string module

A shallow embedding of `core/engine/src/string/{mod,slice,str}.rs`:
the UTF-16–semantic, dual ascii/u16 encoded, reference-counted string
type of the boa JavaScript engine, together with proofs about its
content algorithms (hashing, equality, ordering, substring search,
codepoint decoding, numeric coercion, whitespace trimming, escaping)
and its refcount lifecycle.

Modelling conventions:
* a u16 code unit is a `Nat` (< 2 ^ 16 in well-formed data); a Rust
  `&str` is the list of Unicode scalar values of its characters;
* a `JsString` is modelled by its `as_str()` view (storage variant plus
  code-unit content). Interning (`StaticJsStrings`) is an external
  lookup service returning an equal-content ascii-stored instance, so
  it is the identity at this level of abstraction;
* fallible operations and panicking assertions return `Option`, with
  `none` standing for the panic/abort.
-/

namespace Boa

/-- Maximum value of a Rust `usize` on 64-bit targets. -/
def USIZE_MAX : Nat := 2 ^ 64 - 1

/-- Function is_ascii from `mod.rs:1003`: every unit `u` satisfies
`u & 0b0111_1111 == u` (the loop returns `false` at the first failure). -/
def is_ascii (slice : List Nat) : Bool :=
  slice.all (fun u => u &&& 127 == u)

/-- Rust `str::is_ascii` on narrow text, stated on the scalar values. -/
def strIsAscii (cs : List Nat) : Bool :=
  cs.all (fun c => c < 128)

/-- High (leading) surrogate code unit. -/
def isHighSurrogate (u : Nat) : Bool := decide (0xD800 ≤ u ∧ u ≤ 0xDBFF)

/-- Low (trailing) surrogate code unit. -/
def isLowSurrogate (u : Nat) : Bool := decide (0xDC00 ≤ u ∧ u ≤ 0xDFFF)

/-- Any surrogate code unit. -/
def isSurrogate (u : Nat) : Bool := isHighSurrogate u || isLowSurrogate u

/-- UTF-16 encoding of one Unicode scalar value (`char::encode_utf16`). -/
def encodeUtf16Char (c : Nat) : List Nat :=
  if c < 0x10000 then [c]
  else [0xD800 + (c - 0x10000) / 0x400, 0xDC00 + (c - 0x10000) % 0x400]

/-- UTF-16 encoding of narrow text (`str::encode_utf16`). -/
def encodeUtf16 (cs : List Nat) : List Nat := cs.flatMap encodeUtf16Char

/-- Width in code units, Rust `char::len_utf16`. -/
def lenUtf16 (c : Nat) : Nat := if c < 0x10000 then 1 else 2

/-- UTF-8 byte encoding of one Unicode scalar value (`str` storage bytes). -/
def utf8Char (c : Nat) : List Nat :=
  if c < 0x80 then [c]
  else if c < 0x800 then [0xC0 + c / 64, 0x80 + c % 64]
  else if c < 0x10000 then [0xE0 + c / 4096, 0x80 + c / 64 % 64, 0x80 + c % 64]
  else [0xF0 + c / 262144, 0x80 + c / 4096 % 64, 0x80 + c / 64 % 64, 0x80 + c % 64]

/-- The UTF-8 byte sequence of narrow text (`str::bytes`). -/
def utf8Bytes (cs : List Nat) : List Nat := cs.flatMap utf8Char

/-- Type CodePoint from `mod.rs:123`: a valid Unicode scalar value or an
unpaired surrogate. -/
inductive CodePoint
| Unicode (c : Nat)
| UnpairedSurrogate (u : Nat)
deriving DecidableEq

/-- Method `CodePoint::code_unit_count` (`mod.rs:134`). -/
def CodePoint.code_unit_count : CodePoint → Nat
| .Unicode c => lenUtf16 c
| .UnpairedSurrogate _ => 1

/-- Method `CodePoint::as_char` (`mod.rs:153`). -/
def CodePoint.as_char : CodePoint → Option Nat
| .Unicode c => some c
| .UnpairedSurrogate _ => none

/-- A full run of `char::decode_utf16`: greedy left-to-right surrogate
pairing; an unpairable surrogate becomes `UnpairedSurrogate` and the
following unit is reconsidered. -/
def decodeUtf16 : List Nat → List CodePoint
| [] => []
| [u] => if isSurrogate u then [.UnpairedSurrogate u] else [.Unicode u]
| u :: u2 :: rest =>
  if isHighSurrogate u then
    if isLowSurrogate u2 then
      .Unicode (0x10000 + (u - 0xD800) * 0x400 + (u2 - 0xDC00)) :: decodeUtf16 rest
    else
      .UnpairedSurrogate u :: decodeUtf16 (u2 :: rest)
  else if isLowSurrogate u then
    .UnpairedSurrogate u :: decodeUtf16 (u2 :: rest)
  else
    .Unicode u :: decodeUtf16 (u2 :: rest)

/-- Specification predicate: the unit sequence contains an unpaired
surrogate under greedy left-to-right pairing. -/
def hasUnpairedSurrogate : List Nat → Bool
| [] => false
| [u] => isSurrogate u
| u :: u2 :: rest =>
  if isHighSurrogate u then
    if isLowSurrogate u2 then hasUnpairedSurrogate rest else true
  else if isLowSurrogate u then true
  else hasUnpairedSurrogate (u2 :: rest)

/-- Type JsStr from `str.rs:9`: the borrowed view of a `JsString`, either
ascii bytes or u16 units. A `JsString` is modelled by this view of its
heap block (or interned entry). -/
inductive JsStr
| ascii (bs : List Nat)
| u16 (us : List Nat)
deriving DecidableEq

/-- Method `JsStr::len` (`str.rs:54`). -/
def JsStr.len : JsStr → Nat
| .ascii v => v.length
| .u16 v => v.length

/-- Method `JsStr::is_ascii` (`str.rs:70`): a variant check, not a scan. -/
def JsStr.isAsciiVariant : JsStr → Bool
| .ascii _ => true
| .u16 _ => false

/-- Method `JsStr::as_ascii` (`str.rs:76`). -/
def JsStr.as_ascii : JsStr → Option (List Nat)
| .ascii v => some v
| .u16 _ => none

/-- Method `JsString::to_vec` (`mod.rs:876`): ascii bytes are widened with
`u16::from` (the numeric identity), u16 units are copied. This is also
the code-unit sequence produced by `Iter` on the string. -/
def to_vec : JsStr → List Nat
| .ascii v => v
| .u16 v => v

/-- Type JsStringSlice from `slice.rs:26`: the four borrowed source shapes.
`u8NonAscii` carries the precomputed UTF-16 length of the narrow text. -/
inductive JsStringSlice
| u8Ascii (bs : List Nat)
| u8NonAscii (cs : List Nat) (len : Nat)
| u16Ascii (us : List Nat)
| u16NonAscii (us : List Nat)
deriving DecidableEq

/-- Constructor `JsStringSlice::u8_non_ascii_unchecked` (`slice.rs:55`): stores
`value.encode_utf16().count()` as the length. -/
def JsStringSlice.u8NonAsciiOf (cs : List Nat) : JsStringSlice :=
  .u8NonAscii cs (encodeUtf16 cs).length

/-- Method `JsStringSlice::len` (`slice.rs:76`). -/
def JsStringSlice.len : JsStringSlice → Nat
| .u8Ascii s => s.length
| .u8NonAscii _ l => l
| .u16Ascii s => s.length
| .u16NonAscii s => s.length

/-- Method `JsStringSlice::is_ascii` (`slice.rs:84`): a variant check. -/
def JsStringSlice.isAsciiVariant : JsStringSlice → Bool
| .u8Ascii _ => true
| .u16Ascii _ => true
| .u8NonAscii _ _ => false
| .u16NonAscii _ => false

/-- Conversion `impl From for JsStringSlice` from a narrow `str`
(`slice.rs:215`): classify by scanning once. -/
def JsStringSlice.fromStr (cs : List Nat) : JsStringSlice :=
  if strIsAscii cs then .u8Ascii cs else JsStringSlice.u8NonAsciiOf cs

/-- Conversion `impl From for JsStringSlice` from a u16 slice
(`slice.rs:227`): classify by
scanning once with `is_ascii`. -/
def JsStringSlice.fromU16 (us : List Nat) : JsStringSlice :=
  if is_ascii us then .u16Ascii us else .u16NonAscii us

/-- Conversion `impl From for JsStringSlice` from a JsStr
(`slice.rs:200`): trusts the
`JsStr` classification without re-scanning. -/
def JsStringSlice.fromJsStr : JsStr → JsStringSlice
| .ascii s => .u8Ascii s
| .u16 s => .u16NonAscii s

/-- Iterator content per `Iter::new` (`mod.rs:234`): the code-unit sequence presented
by a slice (ascii bytes widened, narrow non-ascii text encoded). -/
def sliceUnits : JsStringSlice → List Nat
| .u8Ascii s => s
| .u8NonAscii s _ => encodeUtf16 s
| .u16Ascii s => s
| .u16NonAscii s => s

/-- Function is_trimmable_whitespace from `slice.rs:4`: the exact
ECMAScript WhiteSpace and LineTerminator code points. -/
def is_trimmable_whitespace (c : Nat) : Bool :=
  decide (c = 0x0009 ∨ c = 0x000B ∨ c = 0x000C ∨ c = 0x0020 ∨ c = 0x00A0 ∨
    c = 0xFEFF ∨ c = 0x1680 ∨ (0x2000 ≤ c ∧ c ≤ 0x200A) ∨ c = 0x202F ∨
    c = 0x205F ∨ c = 0x3000 ∨ c = 0x000A ∨ c = 0x000D ∨ c = 0x2028 ∨ c = 0x2029)

/-- Rust `char::is_whitespace` (standard-library collaborator): the
Unicode White_Space property. -/
def rustIsWhitespace (c : Nat) : Bool :=
  decide ((0x0009 ≤ c ∧ c ≤ 0x000D) ∨ c = 0x0020 ∨ c = 0x0085 ∨ c = 0x00A0 ∨
    c = 0x1680 ∨ (0x2000 ≤ c ∧ c ≤ 0x200A) ∨ c = 0x2028 ∨ c = 0x2029 ∨
    c = 0x202F ∨ c = 0x205F ∨ c = 0x3000)

/-- Rust `str::trim_start` (standard-library collaborator): drop leading
White_Space characters. -/
def rustTrimStart (cs : List Nat) : List Nat := cs.dropWhile rustIsWhitespace

/-- Rust `str::trim_end` (standard-library collaborator): drop trailing
White_Space characters. -/
def rustTrimEnd (cs : List Nat) : List Nat :=
  (cs.reverse.dropWhile rustIsWhitespace).reverse

/-- Trim test applied to one u16 unit in the U16 branches of
`JsStringSlice::trim_start`/`trim_end` (`slice.rs:112`):
`char::from_u32(u32::from(r)).map(is_trimmable_whitespace).unwrap_or_default()`
(surrogates fail the `char` conversion and count as non-trimmable). -/
def trimmableUnit (r : Nat) : Bool :=
  if isSurrogate r || decide (0x10FFFF < r) then false else is_trimmable_whitespace r

/-- Iterator `rposition`: index of the last element satisfying the
predicate. -/
def rposition (p : Nat → Bool) (l : List Nat) : Option Nat :=
  (l.reverse.findIdx? p).map (fun i => l.length - 1 - i)

/-- Method `JsStringSlice::trim_start` (`slice.rs:101`). The U8 branches
delegate to Rust `str::trim_start`; the U16 branches scan with the
ECMAScript predicate and return an empty ascii view when everything is
trimmable. -/
def JsStringSlice.trim_start : JsStringSlice → JsStringSlice
| .u8Ascii s => .u8Ascii (rustTrimStart s)
| .u8NonAscii s _ => JsStringSlice.fromStr (rustTrimStart s)
| .u16Ascii s =>
  match s.findIdx? (fun r => ! trimmableUnit r) with
  | some left => .u16Ascii (s.drop left)
  | none => .u8Ascii []
| .u16NonAscii s =>
  match s.findIdx? (fun r => ! trimmableUnit r) with
  | some left => JsStringSlice.fromU16 (s.drop left)
  | none => .u8Ascii []

/-- Method `JsStringSlice::trim_end` (`slice.rs:146`), mirror image of
`trim_start` (`rposition` and an inclusive take). -/
def JsStringSlice.trim_end : JsStringSlice → JsStringSlice
| .u8Ascii s => .u8Ascii (rustTrimEnd s)
| .u8NonAscii s _ => JsStringSlice.fromStr (rustTrimEnd s)
| .u16Ascii s =>
  match rposition (fun r => ! trimmableUnit r) s with
  | some right => .u16Ascii (s.take (right + 1))
  | none => .u8Ascii []
| .u16NonAscii s =>
  match rposition (fun r => ! trimmableUnit r) s with
  | some right => JsStringSlice.fromU16 (s.take (right + 1))
  | none => .u8Ascii []

/-- Method `JsStringSlice::trim` (`slice.rs:94`). -/
def JsStringSlice.trim (s : JsStringSlice) : JsStringSlice :=
  s.trim_start.trim_end

/-- Method `JsString::trim_start` (`mod.rs:900`): converts the `as_str`
view to a slice and trims it. -/
def JsString.trim_start (s : JsStr) : JsStringSlice :=
  (JsStringSlice.fromJsStr s).trim_start

/-- Method `JsString::from_slice_skip_interning` (`mod.rs:783`): allocate
with `flags = slice.is_ascii()` and copy; the u16Ascii source is
narrowed with `(byte & 0xFF) as u8`, the u8NonAscii source is encoded
to UTF-16. The result is stated as the `as_str()` view of the block. -/
def from_slice_skip_interning : JsStringSlice → JsStr
| .u8Ascii s => .ascii s
| .u16Ascii s => .ascii (s.map (fun u => u % 256))
| .u8NonAscii s _ => .u16 (encodeUtf16 s)
| .u16NonAscii s => .u16 s

/-- Method `JsString::from_slice` (`mod.rs:824`): build skipping the
interner, then probe `StaticJsStrings` for ascii results. An interned
hit carries the same ascii content, so the `as_str` view is unchanged. -/
def from_slice (s : JsStringSlice) : JsStr := from_slice_skip_interning s

/-- Conversion `impl From for JsString` from a u16 slice (`mod.rs:1039`). -/
def JsString.from_u16 (us : List Nat) : JsStr :=
  from_slice (JsStringSlice.fromU16 us)

/-- Conversion `impl From for JsString` from a narrow `str`
(`mod.rs:1046`): interner probe (content transparent), else a
skip-interning build of the classified slice. -/
def JsString.from_str (cs : List Nat) : JsStr :=
  from_slice_skip_interning (JsStringSlice.fromStr cs)

/-- Conversion `impl From for JsString` from a `JsStr` (`mod.rs:1054`):
the Ascii variant goes through the interner probe or an unchecked ascii
slice; the U16 variant is wrapped unchecked as non-ascii. -/
def JsString.from_js_str : JsStr → JsStr
| .ascii s => from_slice_skip_interning (.u8Ascii s)
| .u16 s => from_slice (.u16NonAscii s)

/-- Copy step of `concat_array` for an ascii result (`mod.rs:379`):
ascii bytes are copied, u16-ascii units are narrowed with `& 0xFF`;
the non-ascii source shapes are `unreachable!` (`mod.rs:409`) because
the flag is the conjunction of the classifications. -/
def copyAscii : JsStringSlice → List Nat
| .u8Ascii s => s
| .u16Ascii s => s.map (fun u => u % 256)
| .u8NonAscii _ _ => []
| .u16NonAscii _ => []

/-- Copy step of `concat_array` for a u16 result (`mod.rs:389`): ascii
bytes are widened, narrow non-ascii text is UTF-16 encoded, u16 units
are copied. -/
def copyWide : JsStringSlice → List Nat
| .u8Ascii s => s
| .u8NonAscii s _ => encodeUtf16 s
| .u16Ascii s => s
| .u16NonAscii s => s

/-- Method `JsString::concat_array` (`mod.rs:345`): one pass sums the
lengths with `checked_add` (overflow panics, modelled `none`) and ANDs
the ascii classifications; the copy pass writes each slice; a u16
result that scans as ascii hits the `unreachable!` panic at
`mod.rs:434` (modelled `none`); ascii results are probed in the
interner (content transparent). -/
def concat_array (strings : List JsStringSlice) : Option JsStr :=
  if (strings.map JsStringSlice.len).sum ≤ USIZE_MAX then
    if strings.all JsStringSlice.isAsciiVariant then
      some (JsStr.ascii (strings.flatMap copyAscii))
    else
      if is_ascii (strings.flatMap copyWide) then none
      else some (JsStr.u16 (strings.flatMap copyWide))
  else none

/-- Method `JsString::concat` (`mod.rs:338`). -/
def concat (x y : JsStringSlice) : Option JsStr := concat_array [x, y]

/-- Byte stream fed to the `Hasher` by `impl Hash for JsString`
(`mod.rs:1117`): the Ascii variant hashes its `&[u8]`, the U16 variant
its `&[u16]`. Hashing a slice writes its length and then each element
as native-endian bytes; the hash value is a function of this stream. -/
def hashStream : JsStr → List Nat
| .ascii s => s.length :: s
| .u16 s => s.length :: s.flatMap (fun u => [u % 256, u / 256 % 256])

/-- Method `PartialEq::eq` for `JsString` (`mod.rs:1132`): compares the
`as_str()` views with the derived equality of `JsStr`, which requires
the variants to match. -/
def jsStringEq (a b : JsStr) : Bool :=
  match a, b with
  | .ascii x, .ascii y => x == y
  | .u16 x, .u16 y => x == y
  | _, _ => false

/-- Lexicographic ordering of `Vec<u16>` (Rust `Ord` on vectors). -/
def listCmp : List Nat → List Nat → Ordering
| [], [] => .eq
| [], _ :: _ => .lt
| _ :: _, [] => .gt
| a :: x, b :: y => match compare a b with
  | .eq => listCmp x y
  | o => o

/-- Method `Ord::cmp` for `JsString` (`mod.rs:1126`):
`self.to_vec().cmp(&other.to_vec())`. -/
def jsStringCmp (a b : JsStr) : Ordering := listCmp (to_vec a) (to_vec b)

/-- Rust `slice::windows`: all contiguous windows of length `n`
(never called with `n = 0` here). -/
def windows : List Nat → Nat → List (List Nat)
| [], n => if n = 0 then [[]] else []
| a :: t, n =>
  if (a :: t).length < n then []
  else (a :: t).take n :: windows t n

/-- Method `JsString::index_of` (`mod.rs:559`): empty needle returns
`from_index` iff it is at most the length; otherwise the windows of the
code-unit sequence are searched from `from_index` with
`position`, shifting the found index back by `from_index`. -/
def index_of (s search_value : JsStr) (from_index : Nat) : Option Nat :=
  let this := to_vec s
  let sv := to_vec search_value
  let len := s.len
  if sv.isEmpty then
    if from_index ≤ len then some from_index else none
  else
    (((windows this sv.length).drop from_index).findIdx? (fun w => w == sv)).map
      (fun i => i + from_index)

/-- First element of a `char::decode_utf16` run (the `.next().expect(..)`
at `mod.rs:632`; the argument list is never empty there). -/
def firstCodePoint (w : List Nat) : CodePoint :=
  match decodeUtf16 w with
  | cp :: _ => cp
  | [] => .UnpairedSurrogate 0

/-- Method `JsString::code_point_at` (`mod.rs:607`): asserts
`position < size` (panic modelled `none`), then decodes the units at
`position..=position+1` (or just `position` at the end) with
`char::decode_utf16`. -/
def code_point_at (s : JsStr) (position : Nat) : Option CodePoint :=
  let size := s.len
  if position < size then
    let v := to_vec s
    let window :=
      if position + 2 ≤ v.length then (v.drop position).take 2
      else (v.drop position).take 1
    some (firstCodePoint window)
  else none

/-- Collect optional characters, failing when any is absent (the
collect step of `String::from_utf16`). -/
def collectChars : List CodePoint → Option (List Nat)
| [] => some []
| cp :: rest =>
  match cp.as_char, collectChars rest with
  | some c, some cs => some (c :: cs)
  | _, _ => none

/-- Rust `String::from_utf16` (standard-library collaborator): collect
the decode run, failing on the first unpaired surrogate. -/
def from_utf16 (v : List Nat) : Option (List Nat) :=
  collectChars (decodeUtf16 v)

/-- Method `JsString::to_std_string` (`mod.rs:458`): the Ascii variant
is returned as narrow text directly; the U16 variant goes through
`String::from_utf16`. -/
def to_std_string : JsStr → Option (List Nat)
| .ascii v => some v
| .u16 v => from_utf16 v

/-- Uppercase hexadecimal digit character. -/
def hexDigit (n : Nat) : Nat := if n < 10 then 48 + n else 55 + n

/-- Zero-padded four-digit uppercase hexadecimal rendering of a u16
value, as produced by the `{:04X}` format for values below 2 ^ 16. -/
def hex4 (u : Nat) : List Nat :=
  [hexDigit (u / 4096 % 16), hexDigit (u / 256 % 16), hexDigit (u / 16 % 16),
    hexDigit (u % 16)]

/-- Escape of one unpaired surrogate (`mod.rs:1232`): a backslash, the
letter u and four uppercase hex digits. -/
def escapeSurrogate (u : Nat) : List Nat := 92 :: 117 :: hex4 u

/-- Method `to_string_escaped` for `[u16]` (`mod.rs:1227`): each decoded
scalar contributes its text form, each unpaired surrogate its escape. -/
def to_string_escaped_u16 (v : List Nat) : List Nat :=
  (decodeUtf16 v).flatMap (fun cp =>
    match cp with
    | .Unicode c => [c]
    | .UnpairedSurrogate e => escapeSurrogate e)

/-- Method `JsString::to_std_string_escaped` (`mod.rs:449`, via the
`ToStringEscaped` impl at `mod.rs:1014`): ascii content is returned as
is, u16 content is decoded with escaping. -/
def to_std_string_escaped : JsStr → List Nat
| .ascii v => v
| .u16 v => to_string_escaped_u16 v

/-- Rust `str::trim_matches` with a character predicate: trim matching
characters from both ends. -/
def trimMatches (p : Nat → Bool) (cs : List Nat) : List Nat :=
  ((cs.dropWhile p).reverse.dropWhile p).reverse

/-- Rust `char::to_digit` (standard-library collaborator): decimal
digits and latin letters of either case, must be below the radix. -/
def toDigit (c base : Nat) : Option Nat :=
  let d : Option Nat :=
    if 48 ≤ c ∧ c ≤ 57 then some (c - 48)
    else if 97 ≤ c ∧ c ≤ 122 then some (c - 97 + 10)
    else if 65 ≤ c ∧ c ≤ 90 then some (c - 65 + 10)
    else none
  match d with
  | some d => if d < base then some d else none
  | none => none

/-- Digit-accumulation core of `u32::from_str_radix`: left fold
`value * base + digit` with a u32 overflow check at each step. -/
def parseDigitsRadix (cs : List Nat) (base : Nat) : Option Nat :=
  cs.foldl
    (fun acc c =>
      match acc, toDigit c base with
      | some v, some d =>
        if v * base + d ≤ 4294967295 then some (v * base + d) else none
      | _, _ => none)
    (some 0)

/-- Rust `u32::from_str_radix` (standard-library collaborator): empty
input and a bare or negative sign fail; a leading plus sign is skipped;
then every character must be a digit of the radix and the value must
fit in u32. -/
def fromStrRadix (cs : List Nat) (base : Nat) : Option Nat :=
  match cs with
  | [] => none
  | c :: rest =>
    if c = 43 then (if rest = [] then none else parseDigitsRadix rest base)
    else if c = 45 then none
    else parseDigitsRadix cs base

/-- Slow-path loop of `JsString::to_number` (`mod.rs:688`): iterate the
remaining bytes, `value = value * base + digit`, any non-digit byte
gives NaN. The source accumulates in `f64`, which is exact for values
below 2 ^ 53; the accumulated integer is modelled exactly. -/
def slowRadixValue (bs : List Nat) (base : Nat) : Option Nat :=
  bs.foldl
    (fun acc c => acc.bind (fun v => (toDigit c base).map (fun d => v * base + d)))
    (some 0)

/-- Digit character for the floating-point literal grammar. -/
def isDigitCh (c : Nat) : Bool := decide (48 ≤ c ∧ c ≤ 57)

/-- Lowercase folding of an ascii letter. -/
def toLowerAscii (c : Nat) : Nat := if 65 ≤ c ∧ c ≤ 90 then c + 32 else c

/-- Modelled from the spec: the external `fast_float` parser used as the
final fallback of `to_number` ("any other literal is parsed as a
floating-point literal; any parse failure → NaN"). This recognizer
accepts exactly an optional sign followed by either a case-insensitive
special word (inf, infinity, nan) or a decimal literal (digits with an
optional point and an optional exponent), consuming the whole input. -/
def fastFloatAccepts (cs : List Nat) : Bool :=
  let body :=
    match cs with
    | 43 :: rest => rest
    | 45 :: rest => rest
    | _ => cs
  let low := body.map toLowerAscii
  let special :=
    low == [105, 110, 102] ||
    low == [105, 110, 102, 105, 110, 105, 116, 121] ||
    low == [110, 97, 110]
  let ipart := body.takeWhile isDigitCh
  let rest1 := body.dropWhile isDigitCh
  let fpart :=
    match rest1 with
    | 46 :: r => r.takeWhile isDigitCh
    | _ => []
  let rest2 :=
    match rest1 with
    | 46 :: r => r.dropWhile isDigitCh
    | _ => rest1
  let expOk :=
    match rest2 with
    | [] => true
    | e :: r =>
      (e == 101 || e == 69) &&
      (let r2 :=
        match r with
        | 43 :: t => t
        | 45 :: t => t
        | _ => r
      !r2.isEmpty && r2.all isDigitCh)
  let decimal := !(ipart.isEmpty && fpart.isEmpty) && expOk
  special || decimal

/-- Result of `JsString::to_number`. The radix paths produce exact
integers (`num`); an accepted floating-point literal is `floatOf` its
text (the f64 value of the external parse is not modelled further). -/
inductive ToNumberResult
| nan
| posInf
| negInf
| num (v : Nat)
| floatOf (cs : List Nat)
deriving DecidableEq

/-- Scalar values of the string Infinity. -/
def strInfinity : List Nat := [73, 110, 102, 105, 110, 105, 116, 121]

/-- Scalar values of the string +Infinity. -/
def strPlusInfinity : List Nat := 43 :: strInfinity

/-- Scalar values of the string -Infinity. -/
def strMinusInfinity : List Nat := 45 :: strInfinity

/-- Dispatch of `JsString::to_number` on the trimmed text
(`mod.rs:656`): the exact strings for zero and the infinities; then the
first two bytes select a radix prefix or reject a leading i/I; radix
literals go through the fast u32 path or the byte-by-byte slow path;
everything else falls back to the external floating-point parser. The
byte slice `&string[2..]` equals the scalar remainder `cs.drop 2`
because a matched prefix consists of two one-byte characters. -/
def afterTrim (cs : List Nat) : ToNumberResult :=
  if cs = [] then .num 0
  else if cs = strMinusInfinity then .negInf
  else if cs = strInfinity ∨ cs = strPlusInfinity then .posInf
  else
    let bytes := utf8Bytes cs
    let b0 := bytes.head?
    let b1 := bytes.tail.head?
    let base : Option Nat :=
      if b0 = some 48 ∧ (b1 = some 98 ∨ b1 = some 66) then some 2
      else if b0 = some 48 ∧ (b1 = some 111 ∨ b1 = some 79) then some 8
      else if b0 = some 48 ∧ (b1 = some 120 ∨ b1 = some 88) then some 16
      else none
    if b0 = some 105 ∨ b0 = some 73 then .nan
    else
      match base with
      | some base =>
        let rest := cs.drop 2
        if rest = [] then .nan
        else
          match fromStrRadix rest base with
          | some v => .num v
          | none =>
            match slowRadixValue (utf8Bytes rest) base with
            | some v => .num v
            | none => .nan
      | none => if fastFloatAccepts cs then .floatOf cs else .nan

/-- Method `JsString::to_number` (`mod.rs:647`): decode (unpaired
surrogates give NaN), trim the ECMAScript whitespace set with
`trim_matches(is_trimmable_whitespace)`, then dispatch. -/
def to_number (s : JsStr) : ToNumberResult :=
  match to_std_string s with
  | none => .nan
  | some cs0 => afterTrim (trimMatches is_trimmable_whitespace cs0)

/-- Tagged reference of a `JsString` (`mod.rs:213`), with the observed
reference count of the pointed-to block for the heap case. -/
inductive TaggedRef
| heap (rc : Nat)
| interned (idx : Nat)
deriving DecidableEq

/-- Method `Clone::clone` for `JsString` (`mod.rs:939`): a heap
reference does `refcount.get().wrapping_add(1)`, aborts on wrap to
zero (modelled `none`) and stores the sum; an interned reference
changes no count. -/
def cloneJs : TaggedRef → Option TaggedRef
| .heap rc =>
  if (rc + 1) % 2 ^ 64 = 0 then none else some (.heap ((rc + 1) % 2 ^ 64))
| .interned i => some (.interned i)

/-- Method `Drop::drop` for `JsString` (`mod.rs:962`): a heap reference
decrements the count and deallocates exactly when it reaches zero (the
Boolean reports the deallocation); an interned reference does nothing. -/
def dropJs : TaggedRef → TaggedRef × Bool
| .heap rc => (.heap (rc - 1), rc - 1 = 0)
| .interned i => (.interned i, false)

/-- Iterated clone. -/
def cloneN : Nat → TaggedRef → Option TaggedRef
| 0, t => some t
| n + 1, t => (cloneJs t).bind (cloneN n)

/-- Iterated drop (discarding the deallocation flags). -/
def dropN : Nat → TaggedRef → TaggedRef
| 0, t => t
| n + 1, t => dropN n (dropJs t).fst

/-- Range indexing `impl JsSliceIndex for Range` (`str.rs:144`):
sub-slice the underlying storage, keeping the variant unchanged (the
TODO at `str.rs:157` notes that an all-ascii sub-slice of a U16 string
keeps the U16 classification). -/
def rangeGet (s : JsStr) (start stop : Nat) : Option JsStr :=
  match s with
  | .ascii v =>
    if start ≤ stop ∧ stop ≤ v.length then
      some (.ascii ((v.drop start).take (stop - start)))
    else none
  | .u16 v =>
    if start ≤ stop ∧ stop ≤ v.length then
      some (.u16 ((v.drop start).take (stop - start)))
    else none

/-- Indexing `impl JsSliceIndex for usize` (`str.rs:133`): checked
code-unit access, ascii bytes widened. -/
def usizeGet (s : JsStr) (index : Nat) : Option Nat :=
  match s with
  | .ascii v => v.get? index
  | .u16 v => v.get? index

/-- Well-formedness of a stored string: ascii classification implies
all code units are below 128 (the representation invariant of
`JsStrVariant::Ascii`). -/
def WfStr : JsStr → Prop
| .ascii bs => ∀ b ∈ bs, b < 128
| .u16 _ => True

/-- Well-formedness of a borrowed slice: the ascii-classified shapes
hold only code units below 128. -/
def WfSlice : JsStringSlice → Prop
| .u8Ascii bs => ∀ b ∈ bs, b < 128
| .u16Ascii us => ∀ u ∈ us, u < 128
| .u8NonAscii _ _ => True
| .u16NonAscii _ => True

/-- Exact classification of a stored string: the variant agrees with
the content (ascii holds only units below 128, u16 holds some unit at
or above 128). Every construction that classifies by scanning
establishes this; the range sub-slice of a U16 string may not. -/
def Classified : JsStr → Prop
| .ascii bs => ∀ b ∈ bs, b < 128
| .u16 us => ¬ ∀ u ∈ us, u < 128

/-- Decidability of the well-formedness of a stored string. -/
instance decWfStr : (s : JsStr) → Decidable (WfStr s)
| .ascii bs => inferInstanceAs (Decidable (∀ b ∈ bs, b < 128))
| .u16 _ => inferInstanceAs (Decidable True)

/-- Decidability of the well-formedness of a slice. -/
instance decWfSlice : (s : JsStringSlice) → Decidable (WfSlice s)
| .u8Ascii bs => inferInstanceAs (Decidable (∀ b ∈ bs, b < 128))
| .u16Ascii us => inferInstanceAs (Decidable (∀ u ∈ us, u < 128))
| .u8NonAscii _ _ => inferInstanceAs (Decidable True)
| .u16NonAscii _ => inferInstanceAs (Decidable True)

/-- Decidability of exact classification. -/
instance decClassified : (s : JsStr) → Decidable (Classified s)
| .ascii bs => inferInstanceAs (Decidable (∀ b ∈ bs, b < 128))
| .u16 us => inferInstanceAs (Decidable (¬ ∀ u ∈ us, u < 128))

/-! ## Supporting lemmas -/

/-- The scan of is_ascii accepts exactly the unit sequences whose
members are all below 128. -/
theorem is_ascii_iff (us : List Nat) : is_ascii us = true ↔ ∀ u ∈ us, u < 128 := by
  simp only [is_ascii, List.all_eq_true, beq_iff_eq]
  have key : ∀ u : Nat, u &&& 127 = u % 128 := by
    intro u
    have h := Nat.and_pow_two_sub_one_eq_mod u 7
    norm_num at h
    exact h
  constructor
  · intro h u hu
    have h2 := h u hu
    rw [key u] at h2
    have : u % 128 < 128 := Nat.mod_lt _ (by norm_num)
    omega
  · intro h u hu
    rw [key u]
    exact Nat.mod_eq_of_lt (h u hu)

/-- Narrowing with `% 256` is the identity on sequences of units below
128. -/
theorem map_mod256_eq_self (s : List Nat) (h : ∀ u ∈ s, u < 128) :
    s.map (fun u => u % 256) = s := by
  induction s with
  | nil => rfl
  | cons a t ih =>
    have ha : a < 128 := h a (List.mem_cons_self a t)
    simp only [List.map_cons, List.cons.injEq]
    exact ⟨Nat.mod_eq_of_lt (by omega), ih (fun u hu => h u (List.mem_cons_of_mem a hu))⟩

/-- Length of to_vec is len (widening preserves length). -/
theorem to_vec_length (s : JsStr) : (to_vec s).length = s.len := by
  cases s <;> rfl

/-! ## C1 -/

/-- C1, counterexample. The claim states that two JsString values of
equal logical UTF-16 content hash identically regardless of the
encoding variant, with ascii storage hashing as if each byte were
widened. In the code, ascii storage hashes its raw byte slice and u16
storage hashes its u16 slice, and these feed different streams to the
hasher on equal content: a u16-stored string of content A is reachable
by range-sub-slicing the u16-stored string of [65, 0x2028] (the TODO at
str.rs:157) and converting the sub-slice back to a JsString, and its
hash stream differs from the ascii-stored A built from narrow text. -/
theorem C1_hash_counterexample :
    JsString.from_u16 [65, 8232] = JsStr.u16 [65, 8232] ∧
    rangeGet (JsStr.u16 [65, 8232]) 0 1 = some (JsStr.u16 [65]) ∧
    JsString.from_js_str (JsStr.u16 [65]) = JsStr.u16 [65] ∧
    JsString.from_str [65] = JsStr.ascii [65] ∧
    to_vec (JsStr.ascii [65]) = to_vec (JsStr.u16 [65]) ∧
    hashStream (JsStr.ascii [65]) ≠ hashStream (JsStr.u16 [65]) := by
  decide

/-- C1, amended: Hash::hash feeds the stored slice to the hasher, so
two JsString values of equal logical UTF-16 content hash identically
provided the ascii classification of each agrees exactly with its
content (the property every scanning constructor establishes); ascii
storage hashes its raw bytes, not widened units, so a u16-stored
all-ascii string obtained through the unchecked sub-slice path hashes
differently from its ascii-stored equal. -/
theorem C1_hash_eq_of_classified (x y : JsStr) (hx : Classified x) (hy : Classified y)
    (h : to_vec x = to_vec y) : hashStream x = hashStream y := by
  cases x with
  | ascii bs =>
    cases y with
    | ascii bs2 => simp only [to_vec] at h; rw [h]
    | u16 us =>
      simp only [Classified] at hx hy
      simp only [to_vec] at h
      exact absurd (h ▸ hx) hy
  | u16 us =>
    cases y with
    | ascii bs2 =>
      simp only [Classified] at hx hy
      simp only [to_vec] at h
      exact absurd (h ▸ hy) hx
    | u16 us2 => simp only [to_vec] at h; rw [h]

/-- C1, witness for the amended theorem at concrete inputs. -/
theorem C1_hash_eq_of_classified_witness :
    hashStream (JsStr.ascii [104, 105]) = hashStream (JsString.from_str [104, 105]) :=
  C1_hash_eq_of_classified (JsStr.ascii [104, 105]) (JsString.from_str [104, 105])
    (by decide) (by decide) (by decide)

/-! ## C2 -/

/-- C2, divergence at the failing input. The claim includes conversion
from a sub-slice among the construction paths after which equal-content
strings must compare equal. Range-sub-slicing the u16-stored
[65, 0x2028] to its first unit yields a U16 view of the all-ascii
content [65] (violating the classification the unchecked constructor
asserts, as the scan is_ascii accepts it); converting it to a JsString
and comparing against the ascii-stored A of the same content returns
false from eq even though cmp orders the two strings as equal. -/
theorem C2_eq_divergence :
    JsString.from_u16 [65, 8232] = JsStr.u16 [65, 8232] ∧
    rangeGet (JsStr.u16 [65, 8232]) 0 1 = some (JsStr.u16 [65]) ∧
    is_ascii [65] = true ∧
    to_vec (JsString.from_str [65]) = to_vec (JsString.from_js_str (JsStr.u16 [65])) ∧
    jsStringEq (JsString.from_str [65]) (JsString.from_js_str (JsStr.u16 [65])) = false ∧
    jsStringCmp (JsString.from_str [65]) (JsString.from_js_str (JsStr.u16 [65])) =
      Ordering.eq := by
  decide

/-! ## C3 -/

/-- C3, divergence at the failing input. The trimming predicate
is_trimmable_whitespace is exactly the ECMAScript set (it accepts
U+FEFF and rejects U+0085), but the U8NonAscii branch of trim_start
delegates to the Rust standard trim, which uses the Unicode White_Space
property: on the narrow non-ascii text U+FEFF a it keeps the
byte-order mark, and on U+0085 a it removes a code point outside the
ECMAScript set. At the JsString level (ascii or u16-stored views) the
ECMAScript predicate is used and a leading byte-order mark followed by
ascii text is removed, yielding an ascii-classified view. -/
theorem C3_trim_divergence :
    is_trimmable_whitespace 0xFEFF = true ∧
    is_trimmable_whitespace 0x85 = false ∧
    rustIsWhitespace 0xFEFF = false ∧
    rustIsWhitespace 0x85 = true ∧
    JsStringSlice.fromStr [0xFEFF, 97] = JsStringSlice.u8NonAscii [0xFEFF, 97] 2 ∧
    JsStringSlice.trim_start (JsStringSlice.fromStr [0xFEFF, 97]) =
      JsStringSlice.u8NonAscii [0xFEFF, 97] 2 ∧
    JsStringSlice.trim_start (JsStringSlice.fromStr [0x85, 97]) =
      JsStringSlice.u8Ascii [97] ∧
    JsString.trim_start (JsString.from_str [0xFEFF, 97, 98, 99]) =
      JsStringSlice.u16Ascii [97, 98, 99] ∧
    JsString.trim_start (JsString.from_str [32, 32]) = JsStringSlice.u8Ascii [] := by
  decide

/-! ## C6 -/

/-- C6: concat of two ascii-classified well-formed slices yields the
ascii string holding the byte-wise concatenation of their contents,
and the encoding of any successful concat_array is ascii exactly when
every input slice is classified ascii. -/
theorem C6_concat_ascii_encoding :
    (∀ a b : JsStringSlice, a.isAsciiVariant = true → b.isAsciiVariant = true →
      WfSlice a → WfSlice b → JsStringSlice.len a + JsStringSlice.len b ≤ USIZE_MAX →
      concat a b = some (JsStr.ascii (sliceUnits a ++ sliceUnits b))) ∧
    (∀ (ss : List JsStringSlice) (r : JsStr), concat_array ss = some r →
      (r.isAsciiVariant = true ↔ ss.all JsStringSlice.isAsciiVariant = true)) := by
  constructor
  · intro a b ha hb wa wb hlen
    have ca : copyAscii a = sliceUnits a := by
      cases a with
      | u8Ascii s => rfl
      | u16Ascii s => exact map_mod256_eq_self s wa
      | u8NonAscii s l => simp [JsStringSlice.isAsciiVariant] at ha
      | u16NonAscii s => simp [JsStringSlice.isAsciiVariant] at ha
    have cb : copyAscii b = sliceUnits b := by
      cases b with
      | u8Ascii s => rfl
      | u16Ascii s => exact map_mod256_eq_self s wb
      | u8NonAscii s l => simp [JsStringSlice.isAsciiVariant] at hb
      | u16NonAscii s => simp [JsStringSlice.isAsciiVariant] at hb
    have hsum : (([a, b].map JsStringSlice.len).sum ≤ USIZE_MAX) := by simpa using hlen
    have hall : [a, b].all JsStringSlice.isAsciiVariant = true := by simp [ha, hb]
    unfold concat concat_array
    rw [if_pos hsum, if_pos hall]
    simp [ca, cb]
  · intro ss r h
    unfold concat_array at h
    split at h
    · split at h
      · rename_i hall
        cases h
        simpa [JsStr.isAsciiVariant] using hall
      · rename_i hall
        split at h
        · exact absurd h (by simp)
        · cases h
          simpa [JsStr.isAsciiVariant] using fun h2 => hall h2
    · exact absurd h (by simp)

/-- C6, witness at concrete inputs. -/
theorem C6_concat_witness :
    concat (JsStringSlice.u8Ascii [104]) (JsStringSlice.u16Ascii [105]) =
      some (JsStr.ascii [104, 105]) ∧
    ((JsStr.u16 [104, 8232]).isAsciiVariant = true ↔
      [JsStringSlice.u8Ascii [104], JsStringSlice.u16NonAscii [8232]].all
        JsStringSlice.isAsciiVariant = true) := by
  constructor
  · have h := C6_concat_ascii_encoding.1 (JsStringSlice.u8Ascii [104])
      (JsStringSlice.u16Ascii [105]) rfl rfl (by decide) (by decide) (by decide)
    simpa [sliceUnits] using h
  · exact C6_concat_ascii_encoding.2
      [JsStringSlice.u8Ascii [104], JsStringSlice.u16NonAscii [8232]]
      (JsStr.u16 [104, 8232]) (by decide)

/-! ## C9 -/

/-- A clone of a live heap reference below the refcount ceiling
increments the count by exactly one. -/
theorem cloneJs_heap (rc : Nat) (h : rc + 1 ≤ USIZE_MAX) :
    cloneJs (TaggedRef.heap rc) = some (TaggedRef.heap (rc + 1)) := by
  have hlt : rc + 1 < 2 ^ 64 := by
    have : (2 : Nat) ^ 64 - 1 < 2 ^ 64 := by norm_num
    unfold USIZE_MAX at h
    omega
  have hm : (rc + 1) % 2 ^ 64 = rc + 1 := Nat.mod_eq_of_lt hlt
  simp only [cloneJs, hm]
  rw [if_neg (by omega)]

/-- Iterating clone adds the iteration count to the refcount. -/
theorem cloneN_heap (n : Nat) : ∀ rc : Nat, rc + n ≤ USIZE_MAX →
    cloneN n (TaggedRef.heap rc) = some (TaggedRef.heap (rc + n)) := by
  induction n with
  | zero => intro rc _; rfl
  | succ n ih =>
    intro rc h
    have h1 : rc + 1 ≤ USIZE_MAX := by omega
    simp only [cloneN]
    rw [cloneJs_heap rc h1]
    show cloneN n (TaggedRef.heap (rc + 1)) = some (TaggedRef.heap (rc + (n + 1)))
    have h3 := ih (rc + 1) (by omega)
    rw [h3]
    congr 2
    omega

/-- Iterating drop subtracts the iteration count from the refcount. -/
theorem dropN_heap (n : Nat) : ∀ rc : Nat,
    dropN n (TaggedRef.heap (rc + n)) = TaggedRef.heap rc := by
  induction n with
  | zero => intro rc; rfl
  | succ n ih =>
    intro rc
    simp only [dropN, dropJs]
    have h2 : rc + (n + 1) - 1 = rc + n := by omega
    rw [h2]
    exact ih rc

/-- C9: on a live non-interned string, clone increments and drop
decrements the shared refcount by exactly one; the block is freed
exactly when the count reaches zero; N clones followed by N drops
restore the pre-clone count; clone and drop of an interned reference
change no count at all. -/
theorem C9_refcount_lifecycle :
    (∀ rc : Nat, 1 ≤ rc → rc + 1 ≤ USIZE_MAX →
      cloneJs (TaggedRef.heap rc) = some (TaggedRef.heap (rc + 1))) ∧
    (∀ rc : Nat, 1 ≤ rc →
      (dropJs (TaggedRef.heap rc)).fst = TaggedRef.heap (rc - 1) ∧
      ((dropJs (TaggedRef.heap rc)).snd = true ↔ rc = 1)) ∧
    (∀ n rc : Nat, 1 ≤ rc → rc + n ≤ USIZE_MAX →
      cloneN n (TaggedRef.heap rc) = some (TaggedRef.heap (rc + n)) ∧
      dropN n (TaggedRef.heap (rc + n)) = TaggedRef.heap rc) ∧
    (∀ i : Nat, cloneJs (TaggedRef.interned i) = some (TaggedRef.interned i) ∧
      dropJs (TaggedRef.interned i) = (TaggedRef.interned i, false)) := by
  refine ⟨fun rc _ h => cloneJs_heap rc h, fun rc h1 => ⟨rfl, ?_⟩,
    fun n rc _ h => ⟨cloneN_heap n rc h, dropN_heap n rc⟩, fun i => ⟨rfl, rfl⟩⟩
  have hsnd : (dropJs (TaggedRef.heap rc)).snd = decide (rc - 1 = 0) := rfl
  rw [hsnd]
  simp only [decide_eq_true_eq]
  omega

/-- C9, witness: three clones and three drops starting from a count of
one, and the interned no-op, at concrete inputs. -/
theorem C9_refcount_witness :
    cloneN 3 (TaggedRef.heap 1) = some (TaggedRef.heap 4) ∧
    dropN 3 (TaggedRef.heap 4) = TaggedRef.heap 1 ∧
    ((dropJs (TaggedRef.heap 1)).snd = true ↔ 1 = 1) ∧
    cloneJs (TaggedRef.interned 5) = some (TaggedRef.interned 5) := by
  refine ⟨(C9_refcount_lifecycle.2.2.1 3 1 (by decide) (by decide)).1,
    (C9_refcount_lifecycle.2.2.1 3 1 (by decide) (by decide)).2,
    (C9_refcount_lifecycle.2.1 1 (by decide)).2,
    (C9_refcount_lifecycle.2.2.2 5).1⟩

/-! ## C10 -/

/-- Conversion from narrow text classifies correctly. -/
theorem wf_fromStr (cs : List Nat) : WfSlice (JsStringSlice.fromStr cs) := by
  unfold JsStringSlice.fromStr
  split
  · rename_i h
    intro b hb
    have h2 : ∀ c ∈ cs, c < 128 := by
      simpa [strIsAscii, List.all_eq_true] using h
    exact h2 b hb
  · exact trivial

/-- Conversion from a u16 slice classifies correctly. -/
theorem wf_fromU16 (us : List Nat) : WfSlice (JsStringSlice.fromU16 us) := by
  unfold JsStringSlice.fromU16
  split
  · rename_i h
    exact (is_ascii_iff us).mp h
  · exact trivial

/-- Conversion from a well-formed stored view preserves
well-formedness. -/
theorem wf_fromJsStr (s : JsStr) (h : WfStr s) :
    WfSlice (JsStringSlice.fromJsStr s) := by
  cases s with
  | ascii bs => exact h
  | u16 us => exact trivial

/-- Building a string from a well-formed slice preserves the ascii
invariant (the u16-ascii narrowing is the identity below 128). -/
theorem wf_from_slice_skip_interning (sl : JsStringSlice) (h : WfSlice sl) :
    WfStr (from_slice_skip_interning sl) := by
  cases sl with
  | u8Ascii s => exact h
  | u16Ascii s =>
    intro b hb
    rcases List.mem_map.mp hb with ⟨u, hu, rfl⟩
    have := h u hu
    have hm : u % 256 = u := Nat.mod_eq_of_lt (by omega)
    omega
  | u8NonAscii s l => exact trivial
  | u16NonAscii s => exact trivial

/-- Concatenation of well-formed slices yields a well-formed string. -/
theorem wf_concat_array (ss : List JsStringSlice) (r : JsStr)
    (hw : ∀ sl ∈ ss, WfSlice sl) (h : concat_array ss = some r) : WfStr r := by
  unfold concat_array at h
  split at h
  · split at h
    · cases h
      intro b hb
      rcases List.mem_flatMap.mp hb with ⟨sl, hsl, hmem⟩
      cases sl with
      | u8Ascii s => exact hw _ hsl b hmem
      | u16Ascii s =>
        rcases List.mem_map.mp hmem with ⟨u, hu, rfl⟩
        have := hw _ hsl u hu
        have hm : u % 256 = u := Nat.mod_eq_of_lt (by omega)
        omega
      | u8NonAscii s l => exact absurd hmem (List.not_mem_nil b)
      | u16NonAscii s => exact absurd hmem (List.not_mem_nil b)
    · split at h
      · exact absurd h (by simp)
      · cases h
        exact trivial
  · exact absurd h (by simp)

/-- Both trims preserve the ascii invariant of slices: the ascii
branches return sub-sequences, the non-ascii branches re-classify by
scanning. -/
theorem wf_trim (sl : JsStringSlice) (h : WfSlice sl) :
    WfSlice sl.trim_start ∧ WfSlice sl.trim_end := by
  constructor
  · cases sl with
    | u8Ascii s =>
      intro b hb
      have hb2 : b ∈ s.dropWhile rustIsWhitespace := hb
      exact h b ((List.dropWhile_sublist _).subset hb2)
    | u8NonAscii s l => exact wf_fromStr (rustTrimStart s)
    | u16Ascii s =>
      cases hfind : s.findIdx? (fun r => ! trimmableUnit r) with
      | some left =>
        simp only [JsStringSlice.trim_start, hfind]
        intro u hu
        exact h u (List.drop_subset _ s hu)
      | none =>
        simp only [JsStringSlice.trim_start, hfind]
        intro u hu
        exact absurd hu (List.not_mem_nil u)
    | u16NonAscii s =>
      cases hfind : s.findIdx? (fun r => ! trimmableUnit r) with
      | some left =>
        simp only [JsStringSlice.trim_start, hfind]
        exact wf_fromU16 _
      | none =>
        simp only [JsStringSlice.trim_start, hfind]
        intro u hu
        exact absurd hu (List.not_mem_nil u)
  · cases sl with
    | u8Ascii s =>
      intro b hb
      have hb2 : b ∈ (s.reverse.dropWhile rustIsWhitespace).reverse := hb
      have hb3 : b ∈ s.reverse :=
        (List.dropWhile_sublist _).subset (List.mem_reverse.mp hb2)
      exact h b (List.mem_reverse.mp hb3)
    | u8NonAscii s l => exact wf_fromStr (rustTrimEnd s)
    | u16Ascii s =>
      cases hfind : rposition (fun r => ! trimmableUnit r) s with
      | some right =>
        simp only [JsStringSlice.trim_end, hfind]
        intro u hu
        exact h u (List.take_subset _ s hu)
      | none =>
        simp only [JsStringSlice.trim_end, hfind]
        intro u hu
        exact absurd hu (List.not_mem_nil u)
    | u16NonAscii s =>
      cases hfind : rposition (fun r => ! trimmableUnit r) s with
      | some right =>
        simp only [JsStringSlice.trim_end, hfind]
        exact wf_fromU16 _
      | none =>
        simp only [JsStringSlice.trim_end, hfind]
        intro u hu
        exact absurd hu (List.not_mem_nil u)

/-- Range sub-slicing preserves the ascii invariant (an ascii sub-slice
of ascii bytes stays below 128; a u16 sub-slice makes no ascii claim). -/
theorem wf_rangeGet (s : JsStr) (start stop : Nat) (t : JsStr) (hw : WfStr s)
    (h : rangeGet s start stop = some t) : WfStr t := by
  cases s with
  | ascii v =>
    simp only [rangeGet] at h
    split at h
    · injection h with h
      subst h
      intro b hb
      exact hw b (List.drop_subset _ _ (List.take_subset _ _ hb))
    · exact absurd h (by simp)
  | u16 v =>
    simp only [rangeGet] at h
    split at h
    · injection h with h
      subst h
      exact trivial
    · exact absurd h (by simp)

/-- C10: the ascii classification invariant. The scan is_ascii accepts
exactly the sequences of units below 128; every public constructor
(from narrow text, from u16 units, from a stored view, concat_array)
establishes well-formedness, and from_slice, trim_start, trim_end and
range sub-slicing preserve it, so ascii-classified data always holds
code units below 128. -/
theorem C10_ascii_classification :
    (∀ us, is_ascii us = true ↔ ∀ u ∈ us, u < 128) ∧
    (∀ cs, WfSlice (JsStringSlice.fromStr cs)) ∧
    (∀ us, WfSlice (JsStringSlice.fromU16 us)) ∧
    (∀ s, WfStr s → WfSlice (JsStringSlice.fromJsStr s)) ∧
    (∀ sl, WfSlice sl → WfStr (from_slice_skip_interning sl) ∧ WfStr (from_slice sl)) ∧
    (∀ cs, WfStr (JsString.from_str cs)) ∧
    (∀ us, WfStr (JsString.from_u16 us)) ∧
    (∀ ss r, (∀ sl ∈ ss, WfSlice sl) → concat_array ss = some r → WfStr r) ∧
    (∀ sl, WfSlice sl → WfSlice sl.trim_start ∧ WfSlice sl.trim_end) ∧
    (∀ s start stop t, WfStr s → rangeGet s start stop = some t → WfStr t) := by
  refine ⟨is_ascii_iff, wf_fromStr, wf_fromU16, wf_fromJsStr,
    fun sl h => ⟨wf_from_slice_skip_interning sl h, wf_from_slice_skip_interning sl h⟩,
    fun cs => wf_from_slice_skip_interning _ (wf_fromStr cs),
    fun us => wf_from_slice_skip_interning _ (wf_fromU16 us),
    wf_concat_array, wf_trim, wf_rangeGet⟩

/-- C10, witness at concrete inputs. -/
theorem C10_ascii_classification_witness :
    WfStr (JsStr.ascii [104, 105]) ∧
    WfSlice (JsStringSlice.u16Ascii [32, 97]).trim_start ∧
    WfStr (JsStr.ascii [97]) := by
  refine ⟨?_, (C10_ascii_classification.2.2.2.2.2.2.2.2.1
    (JsStringSlice.u16Ascii [32, 97]) (by decide)).1, ?_⟩
  · exact (C10_ascii_classification.2.2.2.2.1 (JsStringSlice.u8Ascii [104, 105])
      (by decide)).1
  · exact C10_ascii_classification.2.2.2.2.2.2.2.2.2 (JsStr.ascii [32, 97]) 1 2
      (JsStr.ascii [97]) (by decide) (by decide)

/-! ## C4 -/

/-- Bytes of narrow text starting with an ascii character begin with
that character. -/
theorem utf8Bytes_cons_ascii (c : Nat) (rest : List Nat) (h : c < 128) :
    utf8Bytes (c :: rest) = c :: utf8Bytes rest := by
  simp [utf8Bytes, utf8Char, h]

/-- C4: to_number first decodes and trims the spec whitespace set and
then dispatches: empty remainder gives zero; the three infinity
spellings give the signed infinities; any other remainder whose first
character is i or I gives NaN; a 0b/0B, 0o/0O or 0x/0X prefixed
remainder whose tail parses as an unsigned integer in radix 2/8/16
gives that integer; the two concrete examples of the spec hold; the
function is total, collapsing every parse failure to NaN. -/
theorem C4_to_number :
    (∀ s, to_number s = match to_std_string s with
      | none => ToNumberResult.nan
      | some cs0 => afterTrim (trimMatches is_trimmable_whitespace cs0)) ∧
    afterTrim [] = ToNumberResult.num 0 ∧
    afterTrim strInfinity = ToNumberResult.posInf ∧
    afterTrim strPlusInfinity = ToNumberResult.posInf ∧
    afterTrim strMinusInfinity = ToNumberResult.negInf ∧
    (∀ c rest, (c = 105 ∨ c = 73) →
      ¬(c :: rest = strInfinity ∨ c :: rest = strPlusInfinity ∨
        c :: rest = strMinusInfinity) →
      afterTrim (c :: rest) = ToNumberResult.nan) ∧
    (∀ b r rest v,
      (((b = 98 ∨ b = 66) ∧ r = 2) ∨ ((b = 111 ∨ b = 79) ∧ r = 8) ∨
        ((b = 120 ∨ b = 88) ∧ r = 16)) →
      fromStrRadix rest r = some v →
      afterTrim (48 :: b :: rest) = ToNumberResult.num v) ∧
    to_number (JsString.from_str [32, 32, 48, 120, 49, 70, 32]) =
      ToNumberResult.num 31 ∧
    to_number (JsString.from_str [97, 98, 99]) = ToNumberResult.nan := by
  refine ⟨fun s => rfl, by decide, by decide, by decide, by decide, ?_, ?_, by decide,
    by decide⟩
  · intro c rest hc hni
    rcases hc with rfl | rfl <;>
    · unfold afterTrim
      rw [if_neg (by simp), if_neg (fun h => hni (Or.inr (Or.inr h))),
        if_neg (fun h => hni (h.elim Or.inl (fun h2 => Or.inr (Or.inl h2))))]
      rw [utf8Bytes_cons_ascii _ rest (by norm_num)]
      simp
  · intro b r rest v hbr hparse
    rcases hbr with ⟨hb, rfl⟩ | ⟨hb, rfl⟩ | ⟨hb, rfl⟩ <;> rcases hb with rfl | rfl <;>
    · unfold afterTrim
      rw [if_neg (by simp), if_neg (by simp [strMinusInfinity, strInfinity]),
        if_neg (by simp [strInfinity, strPlusInfinity])]
      rw [utf8Bytes_cons_ascii _ _ (by norm_num), utf8Bytes_cons_ascii _ _ (by norm_num)]
      by_cases hrest : rest = []
      · subst hrest
        simp only [fromStrRadix] at hparse
        exact Option.noConfusion hparse
      · simp [hrest, hparse]

/-- C4, witness applying the hypothesized parts at concrete inputs. -/
theorem C4_to_number_witness :
    afterTrim [105, 116] = ToNumberResult.nan ∧
    afterTrim [48, 120, 49, 70] = ToNumberResult.num 31 := by
  constructor
  · exact C4_to_number.2.2.2.2.2.1 105 [116] (Or.inl rfl) (by decide)
  · exact C4_to_number.2.2.2.2.2.2.1 120 16 [49, 70] 31
      (Or.inr (Or.inr ⟨Or.inl rfl, rfl⟩)) (by decide)

/-! ## C7 -/

/-- Drop at an in-range index exposes the indexed element. -/
theorem drop_eq_getD_cons (l : List Nat) (i : Nat) (h : i < l.length) :
    l.drop i = l.getD i 0 :: l.drop (i + 1) := by
  rw [List.getD_eq_getElem l 0 h]
  exact List.drop_eq_getElem_cons h

/-- Head of the decode run on a two-unit window. -/
theorem firstCodePoint_pair (u0 u1 : Nat) :
    firstCodePoint [u0, u1] =
      if isHighSurrogate u0 then
        if isLowSurrogate u1 then
          CodePoint.Unicode (0x10000 + (u0 - 0xD800) * 0x400 + (u1 - 0xDC00))
        else CodePoint.UnpairedSurrogate u0
      else if isLowSurrogate u0 then CodePoint.UnpairedSurrogate u0
      else CodePoint.Unicode u0 := by
  by_cases h0 : isHighSurrogate u0 = true
  · by_cases h1 : isLowSurrogate u1 = true
    · simp [firstCodePoint, decodeUtf16, h0, h1]
    · simp [firstCodePoint, decodeUtf16, h0, h1]
  · by_cases h2 : isLowSurrogate u0 = true
    · simp [firstCodePoint, decodeUtf16, isSurrogate, h0, h2]
    · simp [firstCodePoint, decodeUtf16, isSurrogate, h0, h2]

/-- Head of the decode run on a one-unit window. -/
theorem firstCodePoint_single (u0 : Nat) :
    firstCodePoint [u0] =
      if isSurrogate u0 then CodePoint.UnpairedSurrogate u0
      else CodePoint.Unicode u0 := by
  by_cases h : isSurrogate u0 = true <;> simp [firstCodePoint, decodeUtf16, h]

/-- The two-unit window read by code_point_at. -/
theorem cpa_window_pair (v : List Nat) (p : Nat) (h : p + 2 ≤ v.length) :
    (v.drop p).take 2 = [v.getD p 0, v.getD (p + 1) 0] := by
  rw [drop_eq_getD_cons v p (by omega), drop_eq_getD_cons v (p + 1) (by omega)]
  rfl

/-- The one-unit window read by code_point_at. -/
theorem cpa_window_single (v : List Nat) (p : Nat) (h : p < v.length) :
    (v.drop p).take 1 = [v.getD p 0] := by
  rw [drop_eq_getD_cons v p h]
  rfl

/-- C7: code_point_at requires the position to be inside the string
(the assertion panic is modelled none); inside, a non-surrogate unit
decodes to itself with code-unit width one, a surrogate pair starting
at the position combines into one scalar of width two, and a lone low
surrogate or an unpairable high surrogate yields an unpaired-surrogate
result of width one. -/
theorem C7_code_point_at (s : JsStr) (position : Nat)
    (hwf : ∀ u ∈ to_vec s, u < 2 ^ 16) :
    (s.len ≤ position → code_point_at s position = none) ∧
    (position < s.len → (
      (isSurrogate ((to_vec s).getD position 0) = false →
        code_point_at s position =
          some (CodePoint.Unicode ((to_vec s).getD position 0)) ∧
        CodePoint.code_unit_count
          (CodePoint.Unicode ((to_vec s).getD position 0)) = 1) ∧
      (isHighSurrogate ((to_vec s).getD position 0) = true →
        position + 1 < s.len →
        isLowSurrogate ((to_vec s).getD (position + 1) 0) = true →
        code_point_at s position = some (CodePoint.Unicode
          (0x10000 + (((to_vec s).getD position 0) - 0xD800) * 0x400 +
            (((to_vec s).getD (position + 1) 0) - 0xDC00))) ∧
        CodePoint.code_unit_count (CodePoint.Unicode
          (0x10000 + (((to_vec s).getD position 0) - 0xD800) * 0x400 +
            (((to_vec s).getD (position + 1) 0) - 0xDC00))) = 2) ∧
      ((isLowSurrogate ((to_vec s).getD position 0) = true ∨
        (isHighSurrogate ((to_vec s).getD position 0) = true ∧
          (position + 1 = s.len ∨
            isLowSurrogate ((to_vec s).getD (position + 1) 0) = false))) →
        code_point_at s position =
          some (CodePoint.UnpairedSurrogate ((to_vec s).getD position 0)) ∧
        CodePoint.code_unit_count
          (CodePoint.UnpairedSurrogate ((to_vec s).getD position 0)) = 1))) := by
  have hlen := to_vec_length s
  constructor
  · intro h
    simp only [code_point_at]
    rw [if_neg (by omega)]
  · intro hpos
    have hpos2 : position < (to_vec s).length := by omega
    have hu0 : (to_vec s).getD position 0 ∈ to_vec s := by
      rw [List.getD_eq_getElem _ 0 hpos2]
      exact List.getElem_mem hpos2
    have hu0lt : (to_vec s).getD position 0 < 65536 := by
      have h2 := hwf _ hu0
      exact lt_of_lt_of_eq h2 (by norm_num)
    refine ⟨?_, ?_, ?_⟩
    · intro hns
      simp only [isSurrogate, Bool.or_eq_false_iff] at hns
      constructor
      · simp only [code_point_at]
        rw [if_pos hpos]
        by_cases hp2 : position + 2 ≤ (to_vec s).length
        · rw [if_pos hp2, cpa_window_pair _ _ hp2, firstCodePoint_pair,
            if_neg (by simp only [hns.1]; exact Bool.false_ne_true),
            if_neg (by simp only [hns.2]; exact Bool.false_ne_true)]
        · rw [if_neg hp2, cpa_window_single _ _ hpos2, firstCodePoint_single,
            if_neg (by simp only [isSurrogate, hns.1, hns.2, Bool.or_self]; exact Bool.false_ne_true)]
      · simp only [CodePoint.code_unit_count, lenUtf16]
        rw [if_pos hu0lt]
    · intro hhi hp1 hlo
      have hp2 : position + 2 ≤ (to_vec s).length := by omega
      constructor
      · simp only [code_point_at]
        rw [if_pos hpos, if_pos hp2, cpa_window_pair _ _ hp2, firstCodePoint_pair,
          if_pos hhi, if_pos hlo]
      · simp only [CodePoint.code_unit_count, lenUtf16]
        rw [if_neg (by omega)]
    · intro hun
      constructor
      · simp only [code_point_at]
        rw [if_pos hpos]
        rcases hun with hlo | ⟨hhi, hend | hnl⟩
        · by_cases hp2 : position + 2 ≤ (to_vec s).length
          · have hhi0 : isHighSurrogate ((to_vec s).getD position 0) = false := by
              simp only [isLowSurrogate, decide_eq_true_eq] at hlo
              simp only [isHighSurrogate, decide_eq_false_iff_not]
              omega
            rw [if_pos hp2, cpa_window_pair _ _ hp2, firstCodePoint_pair,
              if_neg (by simp only [hhi0]; exact Bool.false_ne_true), if_pos hlo]
          · rw [if_neg hp2, cpa_window_single _ _ hpos2, firstCodePoint_single,
              if_pos (by simp only [isSurrogate, hlo, Bool.or_true])]
        · have hp2 : ¬ position + 2 ≤ (to_vec s).length := by omega
          rw [if_neg hp2, cpa_window_single _ _ hpos2, firstCodePoint_single,
            if_pos (by simp only [isSurrogate, hhi, Bool.true_or])]
        · by_cases hp2 : position + 2 ≤ (to_vec s).length
          · rw [if_pos hp2, cpa_window_pair _ _ hp2, firstCodePoint_pair,
              if_pos hhi, if_neg (by simp only [hnl]; exact Bool.false_ne_true)]
          · rw [if_neg hp2, cpa_window_single _ _ hpos2, firstCodePoint_single,
              if_pos (by simp only [isSurrogate, hhi, Bool.true_or])]
      · rfl

/-- C7, witness: a surrogate pair combining with width two and a lone
low surrogate with width one, at concrete inputs. -/
theorem C7_code_point_at_witness :
    code_point_at (JsString.from_u16 [55348, 56606]) 0 =
      some (CodePoint.Unicode 119070) ∧
    code_point_at (JsString.from_u16 [56606, 65]) 0 =
      some (CodePoint.UnpairedSurrogate 56606) := by
  constructor
  · exact (((C7_code_point_at (JsString.from_u16 [55348, 56606]) 0 (by decide)).2
      (by decide)).2.1 (by decide) (by decide) (by decide)).1
  · exact (((C7_code_point_at (JsString.from_u16 [56606, 65]) 0 (by decide)).2
      (by decide)).2.2 (Or.inl (by decide))).1

/-! ## C8 -/

/-- Collecting optional characters fails exactly when some element is
an unpaired surrogate. -/
theorem collectChars_eq_none (l : List CodePoint) :
    collectChars l = none ↔ ∃ cp ∈ l, cp.as_char = none := by
  induction l with
  | nil => simp [collectChars]
  | cons a t ih =>
    cases ha : a.as_char with
    | none => simp [collectChars, ha]
    | some c =>
      cases ht : collectChars t with
      | none =>
        simp only [collectChars, ha, ht]
        constructor
        · intro _
          rcases ih.mp ht with ⟨cp, hmem, hcp⟩
          exact ⟨cp, List.mem_cons_of_mem a hmem, hcp⟩
        · intro _
          trivial
      | some cs =>
        simp only [collectChars, ha, ht]
        constructor
        · intro h
          exact absurd h (by simp)
        · rintro ⟨cp, hmem, hcp⟩
          rcases List.mem_cons.mp hmem with rfl | hmem2
          · rw [ha] at hcp
            exact Option.noConfusion hcp
          · have h2 : collectChars t = none := ih.mpr ⟨cp, hmem2, hcp⟩
            rw [ht] at h2
            exact Option.noConfusion h2

/-- The greedy decode run contains an unpaired surrogate exactly when
the specification predicate holds. -/
theorem decode_has_unpaired (v : List Nat) :
    (∃ cp ∈ decodeUtf16 v, cp.as_char = none) ↔ hasUnpairedSurrogate v = true := by
  induction v using decodeUtf16.induct <;>
    simp_all [decodeUtf16, hasUnpairedSurrogate, CodePoint.as_char]

/-- Numeric value of a hexadecimal digit character. -/
def hexDigitVal (d : Nat) : Nat := if d ≤ 57 then d - 48 else d - 55

/-- The hexadecimal digit encoding round-trips for one digit. -/
theorem hexDigitVal_hexDigit (n : Nat) (h : n < 16) :
    hexDigitVal (hexDigit n) = n := by
  unfold hexDigit hexDigitVal
  split <;> split <;> omega

/-- Every hexadecimal digit character is a decimal digit or an
uppercase letter from A to F. -/
theorem hexDigit_range (n : Nat) (h : n < 16) :
    (48 ≤ hexDigit n ∧ hexDigit n ≤ 57) ∨ (65 ≤ hexDigit n ∧ hexDigit n ≤ 70) := by
  unfold hexDigit
  split
  · left
    omega
  · right
    omega

/-- C8: strict decode of a u16 string fails exactly when the units
contain an unpaired surrogate; ascii content always decodes; the
escaping conversion is total, sending each scalar to its text form and
each unpaired surrogate to a backslash-u escape of exactly four hex
digit characters whose value is the surrogate itself. -/
theorem C8_decode_and_escape :
    (∀ us, to_std_string (JsStr.u16 us) = none ↔ hasUnpairedSurrogate us = true) ∧
    (∀ bs, to_std_string (JsStr.ascii bs) = some bs) ∧
    (∀ us, to_std_string_escaped (JsStr.u16 us) =
      (decodeUtf16 us).flatMap (fun cp =>
        match cp with
        | CodePoint.Unicode c => [c]
        | CodePoint.UnpairedSurrogate e => escapeSurrogate e)) ∧
    (∀ u, u < 2 ^ 16 →
      escapeSurrogate u = [92, 117] ++ hex4 u ∧
      (hex4 u).length = 4 ∧
      (∀ d ∈ hex4 u, (48 ≤ d ∧ d ≤ 57) ∨ (65 ≤ d ∧ d ≤ 70)) ∧
      (hex4 u).foldl (fun a d => a * 16 + hexDigitVal d) 0 = u) := by
  refine ⟨?_, fun bs => rfl, fun us => rfl, ?_⟩
  · intro us
    show from_utf16 us = none ↔ hasUnpairedSurrogate us = true
    unfold from_utf16
    rw [collectChars_eq_none]
    exact decode_has_unpaired us
  · intro u hu
    have hu2 : u < 65536 := lt_of_lt_of_eq hu (by norm_num)
    refine ⟨rfl, rfl, ?_, ?_⟩
    · intro d hd
      simp only [hex4, List.mem_cons, List.not_mem_nil, or_false] at hd
      rcases hd with rfl | rfl | rfl | rfl
      · exact hexDigit_range _ (by omega)
      · exact hexDigit_range _ (by omega)
      · exact hexDigit_range _ (by omega)
      · exact hexDigit_range _ (by omega)
    · unfold hex4
      simp only [List.foldl]
      rw [hexDigitVal_hexDigit _ (by omega), hexDigitVal_hexDigit _ (by omega),
        hexDigitVal_hexDigit _ (by omega), hexDigitVal_hexDigit _ (by omega)]
      omega

/-- C8, witness: the strict decode fails on a lone surrogate and the
escape of the surrogate 0xD834 has four hex digits. -/
theorem C8_decode_and_escape_witness :
    (to_std_string (JsStr.u16 [55348, 65]) = none ↔
      hasUnpairedSurrogate [55348, 65] = true) ∧
    (hex4 55348).length = 4 := by
  exact ⟨C8_decode_and_escape.1 [55348, 65],
    (C8_decode_and_escape.2.2.2 55348 (by norm_num)).2.1⟩

/-! ## C5 -/

/-- Number of windows of a positive width. -/
theorem windows_length (l : List Nat) (n : Nat) (hn : 0 < n) :
    (windows l n).length = l.length + 1 - n := by
  induction l with
  | nil =>
    unfold windows
    rw [if_neg (by omega)]
    simp only [List.length_nil]
    omega
  | cons a t ih =>
    unfold windows
    split
    · rename_i h
      simp only [List.length_cons] at h
      simp only [List.length_nil, List.length_cons]
      omega
    · rename_i h
      simp only [List.length_cons] at h
      simp only [List.length_cons, ih]
      omega

/-- The window at an in-range index is the corresponding sub-sequence. -/
theorem windows_getElem? (l : List Nat) (n : Nat) (hn : 0 < n) :
    ∀ i, i + n ≤ l.length →
    (windows l n)[i]? = some ((l.drop i).take n) := by
  induction l with
  | nil =>
    intro i h
    simp only [List.length_nil] at h
    omega
  | cons a t ih =>
    intro i h
    simp only [List.length_cons] at h
    unfold windows
    rw [if_neg (by simp only [List.length_cons]; omega)]
    cases i with
    | zero => simp
    | succ j =>
      simp only [List.getElem?_cons_succ, List.drop_succ_cons]
      exact ih j (by omega)

/-- C5: index_of returns the smallest code-unit index at or after
from_index at which the code-unit window matches the needle; the empty
needle matches at from_index exactly when from_index is at most the
length; no occurrence gives the absent value none (never a negative
index); the concrete example of the spec holds. -/
theorem C5_index_of (s n : JsStr) (from_index : Nat) :
    (to_vec n = [] →
      index_of s n from_index =
        if from_index ≤ s.len then some from_index else none) ∧
    (to_vec n ≠ [] → ∀ i, index_of s n from_index = some i →
      from_index ≤ i ∧
      ((to_vec s).drop i).take (to_vec n).length = to_vec n ∧
      (∀ j, from_index ≤ j → j < i →
        ((to_vec s).drop j).take (to_vec n).length ≠ to_vec n)) ∧
    (to_vec n ≠ [] → index_of s n from_index = none →
      ∀ j, from_index ≤ j →
        ((to_vec s).drop j).take (to_vec n).length ≠ to_vec n) ∧
    index_of (JsString.from_str [97, 98, 99, 97, 98, 99])
      (JsString.from_str [98, 99]) 2 = some 4 := by
  refine ⟨?_, ?_, ?_, by decide⟩
  · intro hsv
    simp only [index_of]
    rw [if_pos (by simp [hsv])]
  · intro hsv i h
    have hL : 0 < (to_vec n).length := List.length_pos.mpr hsv
    simp only [index_of] at h
    rw [if_neg (by simp [hsv])] at h
    rcases Option.map_eq_some'.mp h with ⟨k, hfind, hik⟩
    subst hik
    rw [List.findIdx?_eq_some_iff_getElem] at hfind
    obtain ⟨hk, hpk, hprev⟩ := hfind
    have hdl := List.length_drop from_index (windows (to_vec s) (to_vec n).length)
    have hWlen : (windows (to_vec s) (to_vec n).length).length
        = (to_vec s).length + 1 - (to_vec n).length := windows_length _ _ hL
    have hbound : from_index + k + (to_vec n).length ≤ (to_vec s).length := by omega
    have hwin := windows_getElem? (to_vec s) (to_vec n).length hL
      (from_index + k) hbound
    have helem : ((windows (to_vec s) (to_vec n).length).drop from_index)[k]? =
        some (((to_vec s).drop (from_index + k)).take (to_vec n).length) := by
      rw [List.getElem?_drop]
      exact hwin
    have helem2 : ((windows (to_vec s) (to_vec n).length).drop from_index)[k] =
        ((to_vec s).drop (from_index + k)).take (to_vec n).length := by
      have h3 := List.getElem?_eq_getElem hk
      rw [h3] at helem
      exact Option.some.inj helem
    refine ⟨by omega, ?_, ?_⟩
    · have hkc : k + from_index = from_index + k := Nat.add_comm k from_index
      rw [hkc]
      rw [helem2] at hpk
      exact eq_of_beq hpk
    · intro j hj1 hj2 heq
      have hj3 : j - from_index < k := by omega
      have hjbound : j + (to_vec n).length ≤ (to_vec s).length := by omega
      have hwinj := windows_getElem? (to_vec s) (to_vec n).length hL j hjbound
      have hlt : j - from_index <
          ((windows (to_vec s) (to_vec n).length).drop from_index).length := by omega
      have helemj : ((windows (to_vec s) (to_vec n).length).drop
          from_index)[j - from_index]? =
          some (((to_vec s).drop j).take (to_vec n).length) := by
        rw [List.getElem?_drop]
        have h5 : from_index + (j - from_index) = j := by omega
        rw [h5]
        exact hwinj
      have helemj2 : ((windows (to_vec s) (to_vec n).length).drop
          from_index)[j - from_index] =
          ((to_vec s).drop j).take (to_vec n).length := by
        have h3 := List.getElem?_eq_getElem hlt
        rw [h3] at helemj
        exact Option.some.inj helemj
      have hcontra := hprev (j - from_index) hj3
      rw [helemj2, heq] at hcontra
      simp at hcontra
  · intro hsv h j hj heq
    have hL : 0 < (to_vec n).length := List.length_pos.mpr hsv
    simp only [index_of] at h
    rw [if_neg (by simp [hsv])] at h
    have hnone := Option.map_eq_none'.mp h
    rw [List.findIdx?_eq_none_iff] at hnone
    by_cases hjb : j + (to_vec n).length ≤ (to_vec s).length
    · have hwinj := windows_getElem? (to_vec s) (to_vec n).length hL j hjb
      have hmem : ((to_vec s).drop j).take (to_vec n).length ∈
          (windows (to_vec s) (to_vec n).length).drop from_index := by
        apply List.mem_iff_getElem?.mpr
        refine ⟨j - from_index, ?_⟩
        rw [List.getElem?_drop]
        have h5 : from_index + (j - from_index) = j := by omega
        rw [h5]
        exact hwinj
      have hfalse := hnone _ hmem
      rw [heq] at hfalse
      simp at hfalse
    · have hlen := congrArg List.length heq
      rw [List.length_take, List.length_drop] at hlen
      have h6 : (to_vec n).length ≤ (to_vec s).length - j :=
        min_eq_left_iff.mp hlen
      omega

/-- C5, witness at the concrete example of the spec. -/
theorem C5_index_of_witness :
    2 ≤ 4 ∧
    ((to_vec (JsString.from_str [97, 98, 99, 97, 98, 99])).drop 4).take
        (to_vec (JsString.from_str [98, 99])).length =
      to_vec (JsString.from_str [98, 99]) ∧
    (∀ j, 2 ≤ j → j < 4 →
      ((to_vec (JsString.from_str [97, 98, 99, 97, 98, 99])).drop j).take
          (to_vec (JsString.from_str [98, 99])).length ≠
        to_vec (JsString.from_str [98, 99])) :=
  (C5_index_of (JsString.from_str [97, 98, 99, 97, 98, 99])
    (JsString.from_str [98, 99]) 2).2.1 (by decide) 4 (by decide)

end Boa
